import Mathlib

/-!
Shallow embedding of the TF-IDF / cosine-similarity core of the
assignment-plagiarism-checker repository.

Modelling conventions:
* C++ `double` is modelled by a linear ordered field `K` (instantiated with
  `ℝ` for concrete statements); `std::sqrt` and `std::log10` are passed as
  explicit function arguments (`Real.sqrt` and `Real.logb 10` at `ℝ`).
* A C++ `std::map<std::string, double>` is modelled by an association list
  `List (α × K)` whose keys are distinct and sorted; all maps built by the
  program have this shape.  `map.size()` is the list length, `map.find`
  is `mapFind`, and iteration over the map is iteration over the list.
* Tokens (C++ `std::string`) are a linearly ordered type `α`.
* C++ `int` indices are modelled by `ℤ`.
-/

namespace Plagiarism

variable {α : Type*} [LinearOrder α] {K : Type*} [LinearOrderedField K]

/-- Model of `std::map::find`: the value stored at key `t`, if present
(first matching entry). -/
def mapFind (t : α) : List (α × K) → Option K
  | [] => none
  | p :: rest => if p.1 = t then some p.2 else mapFind t rest

/-- The key list of an association-list map. -/
def mapKeys (m : List (α × K)) : List α :=
  m.map Prod.fst

/-- The value stored at key `t`, defaulting to `0` when absent. -/
def valAt (m : List (α × K)) (t : α) : K :=
  (mapFind t m).getD 0

/-- `FeatureExtractor::buildVocabulary`: all distinct terms of the corpus,
in sorted order (the C++ code collects them in a `std::set<std::string>`). -/
def buildVocabulary (documents : List (List α)) : List α :=
  List.insertionSort (· ≤ ·) documents.flatten.dedup

/-- `FeatureExtractor::computeTF`: for an empty document the empty map;
otherwise the map sending each distinct term of the document to
`count(term) / |document|`.  (The C++ code counts occurrences in a
`std::map<std::string,int>` and divides by the document length; the keys of
the resulting `std::map` are the distinct terms of the document, sorted.) -/
def computeTF (document : List α) : List (α × K) :=
  if document.isEmpty then []
  else
    (List.insertionSort (· ≤ ·) document.dedup).map fun term =>
      (term, (document.count term : K) / (document.length : K))

/-- The `docCount` local of `FeatureExtractor::computeIDF`: the number of
documents that contain `term` at least once (`std::find` over each
document). -/
def docCount (documents : List (List α)) (term : α) : ℕ :=
  (documents.filter fun doc => decide (term ∈ doc)).length

/-- `FeatureExtractor::computeIDF`: for an empty corpus the empty map;
otherwise, for each vocabulary term, `log10 (totalDocs / docCount)` where
`docCount` is the number of documents containing the term at least once,
and `0` when `docCount = 0`. -/
def computeIDF (log10 : K → K) (documents : List (List α)) : List (α × K) :=
  if documents.isEmpty then []
  else
    (buildVocabulary documents).map fun term =>
      (term,
        if 0 < docCount documents term then
          log10 ((documents.length : K) / (docCount documents term : K))
        else 0)

/-- `FeatureExtractor::computeTFIDF`: one weight vector per document; each
vector has one entry per vocabulary term with value `tf * idf`, where a term
absent from the document contributes `tf = 0`.  (The C++ `idf.at(term)`
cannot fail because `computeIDF` keys its map by exactly the vocabulary;
it is modelled by a lookup defaulting to `0`.) -/
def computeTFIDF (log10 : K → K) (documents : List (List α)) :
    List (List (α × K)) :=
  if documents.isEmpty then []
  else
    documents.map fun doc =>
      (buildVocabulary documents).map fun term =>
        (term,
          (mapFind term (computeTF doc)).getD 0 *
            (mapFind term (computeIDF log10 documents)).getD 0)

/-- `SimilarityChecker::dotProduct`: iterate the smaller of the two sparse
maps, probe the larger for each key, and accumulate the products of the
matched weights. -/
def dotProduct (vec1 vec2 : List (α × K)) : K :=
  let smaller := if vec1.length < vec2.length then vec1 else vec2
  let larger := if vec1.length < vec2.length then vec2 else vec1
  smaller.foldl
    (fun result p =>
      match mapFind p.1 larger with
      | some value2 => result + p.2 * value2
      | none => result)
    0

/-- `SimilarityChecker::magnitude`: square root of the sum of the squares of
the stored weights. -/
def magnitude (sqrt : K → K) (vec : List (α × K)) : K :=
  sqrt (vec.foldl (fun sum p => sum + p.2 * p.2) 0)

/-- `SimilarityChecker::cosineSimilarity`: `0` for an out-of-range index,
`1` for equal indices, `0` when either magnitude is zero, and otherwise
`dot / (mag1 * mag2)`. -/
def cosineSimilarity (sqrt : K → K) (tfidfVectors : List (List (α × K)))
    (doc1Index doc2Index : ℤ) : K :=
  if doc1Index < 0 ∨ (tfidfVectors.length : ℤ) ≤ doc1Index ∨
      doc2Index < 0 ∨ (tfidfVectors.length : ℤ) ≤ doc2Index then 0
  else if doc1Index = doc2Index then 1
  else
    let vec1 := tfidfVectors.getD doc1Index.toNat []
    let vec2 := tfidfVectors.getD doc2Index.toNat []
    let dot := dotProduct vec1 vec2
    let mag1 := magnitude sqrt vec1
    let mag2 := magnitude sqrt vec2
    if mag1 = 0 ∨ mag2 = 0 then 0
    else dot / (mag1 * mag2)

/-- `SimilarityChecker::compareAll`: the nested loop `i = 0..N-1`,
`j = i+1..N-1`, producing `(name_i, name_j, cosineSimilarity i j)`, with
the fallback name `"Document" ++ i` when the name list is too short. -/
def compareAll (sqrt : K → K) (tfidfVectors : List (List (α × K)))
    (documentNames : List String) : List (String × String × K) :=
  let numDocs := tfidfVectors.length
  (List.range numDocs).flatMap fun i =>
    (List.range' (i + 1) (numDocs - (i + 1))).map fun j =>
      (documentNames.getD i ("Document" ++ toString i),
       documentNames.getD j ("Document" ++ toString j),
       cosineSimilarity sqrt tfidfVectors (i : ℤ) (j : ℤ))

/-- Two-digit zero-padded rendering of `n % 100`-sized numerals, used for
the fractional part of the fixed two-decimal format. -/
def pad2 (n : ℕ) : String :=
  if n < 10 then "0" ++ toString n else toString n

/-- Model of `std::fixed << std::setprecision(2)` applied to a value:
round to the nearest hundredth and print with exactly two digits after the
decimal point. -/
def formatFixed2 (x : ℚ) : String :=
  let scaled : ℤ := round (x * 100)
  (if scaled < 0 then "-" else "") ++
    toString (scaled.natAbs / 100) ++ "." ++ pad2 (scaled.natAbs % 100)

/-- `ReportWriter::writeCSV`, modelled as the list of lines written to the
output file: a fixed header, then one row per result in the form
`"<A> vs <B>",<percentage>%,<Yes|No>`, flagged `Yes` exactly when the
similarity strictly exceeds the threshold. -/
def writeCSV (threshold : ℚ) (results : List (String × String × ℚ)) :
    List String :=
  "Student Pair,Similarity Percentage,Plagiarized" ::
  results.map fun result =>
    "\"" ++ result.1 ++ " vs " ++ result.2.1 ++ "\"," ++
      formatFixed2 (result.2.2 * 100) ++ "%," ++
      (if threshold < result.2.2 then "Yes" else "No")

/-! ### Association-list map lemmas -/

theorem mapFind_cons (a : α) (b : K) (m : List (α × K)) (t : α) :
    mapFind t ((a, b) :: m) = if a = t then some b else mapFind t m := rfl

theorem mapFind_eq_none (t : α) :
    ∀ m : List (α × K), mapFind t m = none ↔ t ∉ mapKeys m
  | [] => by simp [mapFind, mapKeys]
  | (a, b) :: m => by
    by_cases h : a = t <;>
      simp [mapFind_cons, h, mapKeys, mapFind_eq_none t m, Ne.symm]

theorem valAt_cons (a : α) (b : K) (m : List (α × K)) (t : α) :
    valAt ((a, b) :: m) t = if a = t then b else valAt m t := by
  unfold valAt
  rw [mapFind_cons]
  by_cases h : a = t <;> simp [h]

theorem valAt_eq_zero_of_not_mem {m : List (α × K)} {t : α}
    (h : t ∉ mapKeys m) : valAt m t = 0 := by
  unfold valAt
  rw [(mapFind_eq_none t m).mpr h]
  rfl

theorem mapFind_of_mem_nodup :
    ∀ {m : List (α × K)}, (mapKeys m).Nodup → ∀ {p : α × K}, p ∈ m →
      mapFind p.1 m = some p.2
  | [], _, _, hp => by simp at hp
  | (a, b) :: m, hnd, p, hp => by
    have hkeys : mapKeys ((a, b) :: m) = a :: mapKeys m := rfl
    rw [hkeys] at hnd
    have hnd' := List.nodup_cons.mp hnd
    rcases List.mem_cons.mp hp with h | h
    · subst h
      simp [mapFind_cons]
    · have hk : p.1 ∈ mapKeys m := List.mem_map_of_mem Prod.fst h
      have : a ≠ p.1 := fun hc => hnd'.1 (hc ▸ hk)
      rw [mapFind_cons, if_neg this]
      exact mapFind_of_mem_nodup hnd'.2 h

theorem mapFind_map_of_mem {l : List α} {t : α} (F : α → K) (h : t ∈ l) :
    mapFind t (l.map fun s => (s, F s)) = some (F t) := by
  induction l with
  | nil => simp at h
  | cons a l ih =>
    rcases List.mem_cons.mp h with rfl | h
    · simp [mapFind_cons]
    · by_cases ha : a = t
      · subst ha; simp [mapFind_cons]
      · simpa [mapFind_cons, ha] using ih h

theorem mapKeys_map (l : List α) (F : α → K) :
    mapKeys (l.map fun s => (s, F s)) = l := by
  induction l with
  | nil => rfl
  | cons a l ih => simpa [mapKeys] using ih

/-! ### Folds as sums -/

theorem foldl_add_eq_sum {β : Type*} (f : β → K) :
    ∀ (l : List β) (a : K), l.foldl (fun acc p => acc + f p) a = a + (l.map f).sum
  | [], a => by simp
  | p :: l, a => by
    rw [List.foldl_cons, foldl_add_eq_sum f l (a + f p)]
    simp [add_assoc]

/-- Canonical form of the dot product: iterate the first map, probe the
second. -/
def dotIter (v w : List (α × K)) : K :=
  (v.map fun p => p.2 * valAt w p.1).sum

theorem foldl_dot (w : List (α × K)) :
    ∀ (v : List (α × K)) (a : K),
      v.foldl
        (fun result p =>
          match mapFind p.1 w with
          | some value2 => result + p.2 * value2
          | none => result)
        a = a + dotIter v w
  | [], a => by simp [dotIter]
  | p :: v, a => by
    rcases hf : mapFind p.1 w with _ | x
    · simp only [List.foldl_cons, hf]
      rw [foldl_dot w v a]
      simp [dotIter, valAt, hf]
    · simp only [List.foldl_cons, hf]
      rw [foldl_dot w v (a + p.2 * x)]
      simp [dotIter, valAt, hf, add_assoc]

theorem dotProduct_eq_dotIter (v w : List (α × K)) :
    dotProduct v w =
      if v.length < w.length then dotIter v w else dotIter w v := by
  unfold dotProduct
  by_cases h : v.length < w.length
  · simp only [h, if_true]
    rw [foldl_dot w v 0, zero_add]
  · simp only [h, if_false]
    rw [foldl_dot v w 0, zero_add]

/-- Sum over an association list with distinct keys, as a `Finset` sum over
its key set. -/
theorem sum_map_eq_sum_keys (f : α → K → K) :
    ∀ m : List (α × K), (mapKeys m).Nodup →
      (m.map fun p => f p.1 p.2).sum =
        ∑ t ∈ (mapKeys m).toFinset, f t (valAt m t)
  | [], _ => by simp [mapKeys]
  | (a, b) :: m, hnd => by
    have hkeys : mapKeys ((a, b) :: m) = a :: mapKeys m := rfl
    rw [hkeys] at hnd
    have hnd' := List.nodup_cons.mp hnd
    rw [List.map_cons, List.sum_cons, hkeys, List.toFinset_cons,
      Finset.sum_insert (by simpa using hnd'.1),
      sum_map_eq_sum_keys f m hnd'.2]
    congr 1
    · rw [valAt_cons, if_pos rfl]
    · refine Finset.sum_congr rfl fun t ht => ?_
      have hm : t ∈ mapKeys m := List.mem_toFinset.mp ht
      rw [valAt_cons, if_neg (fun hc => hnd'.1 (by rw [hc]; exact hm))]


theorem mapFind_mem {m : List (α × K)} {t : α} {x : K}
    (h : mapFind t m = some x) : (t, x) ∈ m := by
  induction m with
  | nil => simp [mapFind] at h
  | cons p m ih =>
    obtain ⟨a, b⟩ := p
    rw [mapFind_cons] at h
    by_cases hp : a = t
    · rw [if_pos hp] at h
      obtain rfl := hp
      obtain rfl : b = x := by simpa using h
      exact List.mem_cons_self _ _
    · rw [if_neg hp] at h
      exact List.mem_cons_of_mem _ (ih h)

theorem dotIter_eq_sum_union {v w : List (α × K)}
    (hv : (mapKeys v).Nodup) :
    dotIter v w =
      ∑ t ∈ (mapKeys v).toFinset ∪ (mapKeys w).toFinset,
        valAt v t * valAt w t := by
  rw [dotIter, sum_map_eq_sum_keys (fun t x => x * valAt w t) v hv]
  refine Finset.sum_subset Finset.subset_union_left fun t _ htv => ?_
  rw [valAt_eq_zero_of_not_mem (fun hm => htv (List.mem_toFinset.mpr hm)),
    zero_mul]

theorem dotIter_comm {v w : List (α × K)}
    (hv : (mapKeys v).Nodup) (hw : (mapKeys w).Nodup) :
    dotIter v w = dotIter w v := by
  rw [dotIter_eq_sum_union hv, dotIter_eq_sum_union hw, Finset.union_comm]
  exact Finset.sum_congr rfl fun t _ => mul_comm _ _

theorem dotProduct_comm {v w : List (α × K)}
    (hv : (mapKeys v).Nodup) (hw : (mapKeys w).Nodup) :
    dotProduct v w = dotProduct w v := by
  rw [dotProduct_eq_dotIter, dotProduct_eq_dotIter]
  rcases lt_trichotomy v.length w.length with h | h | h
  · rw [if_pos h, if_neg (by omega)]
  · rw [if_neg (by omega), if_neg (by omega), dotIter_comm hw hv]
  · rw [if_neg (by omega), if_pos h]

/-- The sum of the squares of the stored weights (the quantity under the
square root in `magnitude`). -/
def sqSum (vec : List (α × K)) : K :=
  (vec.map fun p => p.2 * p.2).sum

theorem magnitude_eq_sqrt_sqSum (sqrt : K → K) (vec : List (α × K)) :
    magnitude sqrt vec = sqrt (sqSum vec) := by
  rw [magnitude, sqSum, foldl_add_eq_sum (fun p => p.2 * p.2) vec 0, zero_add]

theorem sqSum_nonneg (vec : List (α × K)) : 0 ≤ sqSum vec := by
  refine List.sum_nonneg fun x hx => ?_
  rcases List.mem_map.mp hx with ⟨p, _, rfl⟩
  exact mul_self_nonneg _

theorem sqSum_eq_sum_keys {v : List (α × K)} (hv : (mapKeys v).Nodup) :
    sqSum v = ∑ t ∈ (mapKeys v).toFinset, valAt v t * valAt v t :=
  sum_map_eq_sum_keys (fun _ x => x * x) v hv

theorem dotProduct_self {v : List (α × K)} (hv : (mapKeys v).Nodup) :
    dotProduct v v = sqSum v := by
  rw [dotProduct_eq_dotIter, if_neg (lt_irrefl _), dotIter, sqSum]
  refine congrArg List.sum (List.map_congr_left fun p hp => ?_)
  rw [valAt, mapFind_of_mem_nodup hv hp, Option.getD_some]

theorem dotIter_nonneg {v w : List (α × K)}
    (hvn : ∀ p ∈ v, 0 ≤ p.2) (hwn : ∀ p ∈ w, 0 ≤ p.2) :
    0 ≤ dotIter v w := by
  refine List.sum_nonneg fun x hx => ?_
  rcases List.mem_map.mp hx with ⟨p, hp, rfl⟩
  refine mul_nonneg (hvn p hp) ?_
  rw [valAt]
  rcases hf : mapFind p.1 w with _ | y
  · simp
  · simpa using hwn _ (mapFind_mem hf)

/-- Cauchy–Schwarz for the sparse dot product: the square of the dot product
is at most the product of the two sums of squares. -/
theorem dotIter_sq_le {v w : List (α × K)}
    (hv : (mapKeys v).Nodup) (hw : (mapKeys w).Nodup) :
    dotIter v w * dotIter v w ≤ sqSum v * sqSum w := by
  have hcs := Finset.sum_mul_sq_le_sq_mul_sq
    ((mapKeys v).toFinset ∪ (mapKeys w).toFinset)
    (fun t => valAt v t) (fun t => valAt w t)
  rw [dotIter_eq_sum_union hv, ← pow_two]
  have hv2 : sqSum v =
      ∑ t ∈ (mapKeys v).toFinset ∪ (mapKeys w).toFinset,
        valAt v t ^ 2 := by
    rw [sqSum_eq_sum_keys hv]
    rw [Finset.sum_subset Finset.subset_union_left
      (fun t _ htv => by
        rw [valAt_eq_zero_of_not_mem (fun hm => htv (List.mem_toFinset.mpr hm)),
          zero_mul])]
    exact Finset.sum_congr rfl fun t _ => (pow_two _).symm
  have hw2 : sqSum w =
      ∑ t ∈ (mapKeys v).toFinset ∪ (mapKeys w).toFinset,
        valAt w t ^ 2 := by
    rw [sqSum_eq_sum_keys hw]
    rw [Finset.sum_subset Finset.subset_union_right
      (fun t _ htw => by
        rw [valAt_eq_zero_of_not_mem (fun hm => htw (List.mem_toFinset.mpr hm)),
          zero_mul])]
    exact Finset.sum_congr rfl fun t _ => (pow_two _).symm
  rw [hv2, hw2]
  exact hcs

/-! ### Pipeline invariants -/

theorem buildVocabulary_nodup (documents : List (List α)) :
    (buildVocabulary documents).Nodup :=
  (List.perm_insertionSort _ _).nodup_iff.mpr (List.nodup_dedup _)

theorem mem_buildVocabulary {documents : List (List α)} {t : α} :
    t ∈ buildVocabulary documents ↔ ∃ doc ∈ documents, t ∈ doc := by
  unfold buildVocabulary
  rw [(List.perm_insertionSort _ _).mem_iff, List.mem_dedup, List.mem_flatten]

theorem docCount_pos {documents : List (List α)} {t : α}
    (ht : t ∈ buildVocabulary documents) : 0 < docCount documents t := by
  rcases mem_buildVocabulary.mp ht with ⟨doc, hdoc, htd⟩
  exact List.length_pos_of_mem
    (List.mem_filter.mpr ⟨hdoc, by simpa using htd⟩)

theorem computeTF_perm {d1 d2 : List α} (h : List.Perm d1 d2) :
    computeTF (K := K) d1 = computeTF (K := K) d2 := by
  unfold computeTF
  have hemp : d1.isEmpty = d2.isEmpty := by
    have hlen := h.length_eq
    cases d1 <;> cases d2 <;> simp_all
  rw [hemp]
  by_cases hd : d2.isEmpty
  · rw [if_pos hd, if_pos hd]
  · rw [if_neg hd, if_neg hd]
    have hkeys :
        List.insertionSort (· ≤ ·) d1.dedup =
          List.insertionSort (· ≤ ·) d2.dedup :=
      List.eq_of_perm_of_sorted
        (((List.perm_insertionSort _ _).trans h.dedup).trans
          (List.perm_insertionSort _ _).symm)
        (List.sorted_insertionSort _ _) (List.sorted_insertionSort _ _)
    rw [hkeys]
    refine List.map_congr_left fun t _ => ?_
    rw [h.count_eq, h.length_eq]

theorem computeTFIDF_length (log10 : K → K) (documents : List (List α)) :
    (computeTFIDF log10 documents).length = documents.length := by
  by_cases h : documents.isEmpty
  · rw [List.isEmpty_iff.mp h]
    rfl
  · rw [computeTFIDF, if_neg h, List.length_map]

theorem computeTFIDF_getD (log10 : K → K) {documents : List (List α)}
    {i : ℕ} (hi : i < documents.length) :
    (computeTFIDF log10 documents).getD i [] =
      (buildVocabulary documents).map fun term =>
        (term,
          (mapFind term (computeTF documents[i])).getD 0 *
            (mapFind term (computeIDF log10 documents)).getD 0) := by
  have hne : ¬documents.isEmpty := by
    cases documents
    · simp at hi
    · simp
  rw [computeTFIDF, if_neg hne,
    List.getD_eq_getElem _ _ (by simpa using hi), List.getElem_map]

theorem mapKeys_computeTFIDF (log10 : K → K) {documents : List (List α)}
    {v : List (α × K)} (hv : v ∈ computeTFIDF log10 documents) :
    mapKeys v = buildVocabulary documents := by
  by_cases h : documents.isEmpty
  · rw [computeTFIDF, if_pos h] at hv
    simp at hv
  · rw [computeTFIDF, if_neg h] at hv
    rcases List.mem_map.mp hv with ⟨doc, _, rfl⟩
    exact mapKeys_map _ _

theorem cosineSimilarity_valid (sqrt : K → K)
    (vectors : List (List (α × K))) {i j : ℕ}
    (hi : i < vectors.length) (hj : j < vectors.length) (hij : i ≠ j) :
    cosineSimilarity sqrt vectors (i : ℤ) (j : ℤ) =
      if magnitude sqrt (vectors.getD i []) = 0 ∨
          magnitude sqrt (vectors.getD j []) = 0 then 0
      else
        dotProduct (vectors.getD i []) (vectors.getD j []) /
          (magnitude sqrt (vectors.getD i []) *
            magnitude sqrt (vectors.getD j [])) := by
  rw [cosineSimilarity, if_neg (by omega),
    if_neg (by exact_mod_cast hij)]
  simp only [Int.toNat_natCast]

/-! ### Claim theorems -/

/-- C2: for any pair of indices with at least one index negative or at least
`N` (the number of stored vectors), `cosineSimilarity` returns exactly `0`
(it is a total function, so it cannot raise an error). -/
theorem cosineSimilarity_out_of_range (sqrt : K → K)
    (tfidfVectors : List (List (α × K))) (doc1Index doc2Index : ℤ)
    (h : doc1Index < 0 ∨ (tfidfVectors.length : ℤ) ≤ doc1Index ∨
      doc2Index < 0 ∨ (tfidfVectors.length : ℤ) ≤ doc2Index) :
    cosineSimilarity sqrt tfidfVectors doc1Index doc2Index = 0 := by
  rw [cosineSimilarity, if_pos h]

/-- Witness for C2: a negative first index and a too-large second index both
give similarity `0` on a concrete one-vector store. -/
theorem cosineSimilarity_out_of_range_witness :
    cosineSimilarity (fun x : ℚ => x) [[((0 : ℕ), (1 : ℚ))]] (-1) 0 = 0 ∧
      cosineSimilarity (fun x : ℚ => x) [[((0 : ℕ), (1 : ℚ))]] 0 5 = 0 :=
  ⟨cosineSimilarity_out_of_range _ _ _ _ (Or.inl (by decide)),
   cosineSimilarity_out_of_range _ _ _ _
     (Or.inr (Or.inr (Or.inr (by decide))))⟩

/-- C3: for every valid index `i`, `cosineSimilarity i i = 1`,
unconditionally: the proof only uses the `doc1Index == doc2Index` branch,
for an arbitrary `sqrt` function and arbitrary stored vectors (so it holds
even when the vector at `i` has zero magnitude). -/
theorem cosineSimilarity_self (sqrt : K → K)
    (tfidfVectors : List (List (α × K))) (i : ℤ)
    (h0 : 0 ≤ i) (hlt : i < (tfidfVectors.length : ℤ)) :
    cosineSimilarity sqrt tfidfVectors i i = 1 := by
  rw [cosineSimilarity, if_neg (by omega), if_pos rfl]

/-- Witness for C3: the diagonal similarity is `1` on a concrete store whose
single vector has zero magnitude. -/
theorem cosineSimilarity_self_witness :
    cosineSimilarity (fun x : ℚ => x) [[((0 : ℕ), (0 : ℚ))]] 0 0 = 1 ∧
      magnitude (fun x : ℚ => x) [((0 : ℕ), (0 : ℚ))] = 0 :=
  ⟨cosineSimilarity_self _ _ 0 (by decide) (by decide), by
    norm_num [magnitude]⟩

/-- C4: a document with zero tokens has an empty TF map, and its cosine
similarity against every other document index `j ≠ i` is `0`, through the
zero-magnitude rule (no division is involved). -/
theorem computeTF_empty_similarity_zero (sqrt log10 : K → K)
    (hsqrt0 : sqrt 0 = 0) (documents : List (List α)) {i j : ℕ}
    (hi : i < documents.length) (hj : j < documents.length) (hij : i ≠ j)
    (hempty : documents[i] = []) :
    computeTF (K := K) documents[i] = [] ∧
      cosineSimilarity sqrt (computeTFIDF log10 documents)
        (i : ℤ) (j : ℤ) = 0 := by
  constructor
  · rw [hempty]
    rfl
  · have hi' : i < (computeTFIDF log10 documents).length := by
      rw [computeTFIDF_length]; exact hi
    have hj' : j < (computeTFIDF log10 documents).length := by
      rw [computeTFIDF_length]; exact hj
    rw [cosineSimilarity_valid sqrt _ hi' hj' hij]
    have hvec : (computeTFIDF log10 documents).getD i [] =
        (buildVocabulary documents).map fun term =>
          (term,
            (mapFind term (computeTF (K := K) documents[i])).getD 0 *
              (mapFind term (computeIDF log10 documents)).getD 0) :=
      computeTFIDF_getD log10 hi
    have hmag : magnitude sqrt ((computeTFIDF log10 documents).getD i []) = 0 := by
      rw [hvec, magnitude_eq_sqrt_sqSum]
      have hzero : sqSum ((buildVocabulary documents).map fun term =>
          (term,
            (mapFind term (computeTF (K := K) documents[i])).getD 0 *
              (mapFind term (computeIDF log10 documents)).getD 0)) = 0 := by
        rw [sqSum, List.map_map]
        refine List.sum_eq_zero fun x hx => ?_
        rcases List.mem_map.mp hx with ⟨term, _, rfl⟩
        simp only [Function.comp]
        rw [hempty]
        show ((mapFind term (computeTF (K := K) [])).getD 0 * _) *
          ((mapFind term (computeTF (K := K) [])).getD 0 * _) = 0
        have : computeTF (K := K) ([] : List α) = [] := rfl
        rw [this]
        show ((none : Option K).getD 0 * _) * ((none : Option K).getD 0 * _) = 0
        simp
      rw [hzero, hsqrt0]
    rw [if_pos (Or.inl hmag)]

/-- Witness for C4: in the concrete corpus `[[], [0]]` the empty document 0
has empty TF map and similarity `0` against document 1. -/
theorem computeTF_empty_similarity_zero_witness :
    computeTF (K := ℚ) (([[], [0]] : List (List ℕ))[0]) = [] ∧
      cosineSimilarity (fun x : ℚ => x)
        (computeTFIDF (fun x : ℚ => x) ([[], [0]] : List (List ℕ)))
        ((0 : ℕ) : ℤ) ((1 : ℕ) : ℤ) = 0 :=
  computeTF_empty_similarity_zero (fun x : ℚ => x) (fun x : ℚ => x) rfl
    ([[], [0]] : List (List ℕ)) (by decide) (by decide) (by decide) rfl

/-- The index pairs visited by the nested loop of
`SimilarityChecker::compareAll`, in iteration order. -/
def indexPairs (n : ℕ) : List (ℕ × ℕ) :=
  (List.range n).flatMap fun i =>
    (List.range' (i + 1) (n - (i + 1))).map fun j => (i, j)

theorem indexPairs_length (n : ℕ) :
    (indexPairs n).length = n * (n - 1) / 2 := by
  rw [indexPairs, List.length_flatMap]
  simp only [Function.comp_def]
  have hmap : (List.map (fun i =>
      ((List.range' (i + 1) (n - (i + 1))).map fun j => (i, j)).length)
        (List.range n)).sum = ∑ i ∈ Finset.range n, (n - 1 - i) := by
    have : ((List.range n).map fun i => n - 1 - i).sum =
        ∑ i ∈ Finset.range n, (n - 1 - i) := rfl
    rw [← this]
    refine congrArg List.sum (List.map_congr_left fun i _ => ?_)
    rw [List.length_map, List.length_range']
    omega
  rw [hmap, Finset.sum_range_reflect (fun j => j) n, Finset.sum_range_id]

theorem mem_indexPairs {n i j : ℕ} :
    (i, j) ∈ indexPairs n ↔ i < j ∧ j < n := by
  rw [indexPairs, List.mem_flatMap]
  constructor
  · rintro ⟨a, ha, hm⟩
    rcases List.mem_map.mp hm with ⟨b, hb, hab⟩
    obtain ⟨rfl, rfl⟩ := Prod.mk.inj hab
    have h1 := List.mem_range.mp ha
    have h2 := List.mem_range'_1.mp hb
    omega
  · rintro ⟨hij, hjn⟩
    refine ⟨i, List.mem_range.mpr (by omega), List.mem_map.mpr
      ⟨j, List.mem_range'_1.mpr (by omega), rfl⟩⟩

theorem indexPairs_sorted (n : ℕ) :
    (indexPairs n).Pairwise fun p q =>
      p.1 < q.1 ∨ (p.1 = q.1 ∧ p.2 < q.2) := by
  rw [indexPairs, List.pairwise_flatMap]
  constructor
  · intro a _
    rw [List.pairwise_map]
    exact (List.pairwise_lt_range' _ _).imp fun h => Or.inr ⟨rfl, h⟩
  · refine (List.pairwise_lt_range n).imp fun {a b} hab => ?_
    intro x hx y hy
    rcases List.mem_map.mp hx with ⟨_, _, rfl⟩
    rcases List.mem_map.mp hy with ⟨_, _, rfl⟩
    exact Or.inl hab

/-- C5: `compareAll` produces exactly the rows indexed by `indexPairs N`:
`N*(N-1)/2` results, one per pair `(i, j)` with `i < j < N` (no self,
duplicate or reversed pairs), in nested-iteration order (sorted by `i`,
then `j`), and the empty list when `N ≤ 1`. -/
theorem compareAll_structure (sqrt : K → K)
    (tfidfVectors : List (List (α × K))) (documentNames : List String) :
    compareAll sqrt tfidfVectors documentNames =
      (indexPairs tfidfVectors.length).map (fun p =>
        (documentNames.getD p.1 ("Document" ++ toString p.1),
         documentNames.getD p.2 ("Document" ++ toString p.2),
         cosineSimilarity sqrt tfidfVectors (p.1 : ℤ) (p.2 : ℤ))) ∧
      (compareAll sqrt tfidfVectors documentNames).length =
        tfidfVectors.length * (tfidfVectors.length - 1) / 2 ∧
      (∀ i j : ℕ,
        (i, j) ∈ indexPairs tfidfVectors.length ↔
          i < j ∧ j < tfidfVectors.length) ∧
      (indexPairs tfidfVectors.length).Pairwise
        (fun p q => p.1 < q.1 ∨ (p.1 = q.1 ∧ p.2 < q.2)) ∧
      (tfidfVectors.length ≤ 1 →
        compareAll sqrt tfidfVectors documentNames = []) := by
  have heq : compareAll sqrt tfidfVectors documentNames =
      (indexPairs tfidfVectors.length).map (fun p =>
        (documentNames.getD p.1 ("Document" ++ toString p.1),
         documentNames.getD p.2 ("Document" ++ toString p.2),
         cosineSimilarity sqrt tfidfVectors (p.1 : ℤ) (p.2 : ℤ))) := by
    rw [compareAll, indexPairs, List.map_flatMap]
    refine congrArg _ (funext fun i => ?_)
    rw [List.map_map]
    rfl
  refine ⟨heq, ?_, fun i j => mem_indexPairs, indexPairs_sorted _, ?_⟩
  · rw [heq, List.length_map, indexPairs_length]
  · intro hn
    rw [heq]
    interval_cases h : tfidfVectors.length <;> rfl

/-- Witness for C5: with one stored vector `compareAll` is empty, and the
membership characterization holds at the concrete pair `(0, 2)` for three
stored vectors. -/
theorem compareAll_structure_witness :
    compareAll (fun x : ℚ => x) [[((0 : ℕ), (1 : ℚ))]] ["a"] = [] ∧
      (((0 : ℕ), (2 : ℕ)) ∈
          indexPairs ([[], [], []] : List (List (ℕ × ℚ))).length ↔
        0 < 2 ∧ 2 < ([[], [], []] : List (List (ℕ × ℚ))).length) :=
  ⟨(compareAll_structure (fun x : ℚ => x) [[((0 : ℕ), (1 : ℚ))]]
      ["a"]).2.2.2.2 (by decide),
   (compareAll_structure (fun x : ℚ => x) ([[], [], []] : List (List (ℕ × ℚ)))
      []).2.2.1 0 2⟩

/-- C6: cosine similarity is symmetric in its two indices, for every stored
collection of vectors with distinct keys (every `std::map` has distinct
keys), across the smaller/larger iteration choice made by `dotProduct`. -/
theorem cosineSimilarity_symm (sqrt : K → K)
    (tfidfVectors : List (List (α × K)))
    (hkeys : ∀ v ∈ tfidfVectors, (mapKeys v).Nodup)
    (doc1Index doc2Index : ℤ) :
    cosineSimilarity sqrt tfidfVectors doc1Index doc2Index =
      cosineSimilarity sqrt tfidfVectors doc2Index doc1Index := by
  simp only [cosineSimilarity]
  by_cases hrange : doc1Index < 0 ∨ (tfidfVectors.length : ℤ) ≤ doc1Index ∨
      doc2Index < 0 ∨ (tfidfVectors.length : ℤ) ≤ doc2Index
  · have hrange2 : doc2Index < 0 ∨ (tfidfVectors.length : ℤ) ≤ doc2Index ∨
        doc1Index < 0 ∨ (tfidfVectors.length : ℤ) ≤ doc1Index := by tauto
    rw [if_pos hrange, if_pos hrange2]
  · have hrange2 : ¬(doc2Index < 0 ∨ (tfidfVectors.length : ℤ) ≤ doc2Index ∨
        doc1Index < 0 ∨ (tfidfVectors.length : ℤ) ≤ doc1Index) := by tauto
    rw [if_neg hrange, if_neg hrange2]
    by_cases heq : doc1Index = doc2Index
    · rw [if_pos heq, if_pos heq.symm]
    · rw [if_neg heq, if_neg (Ne.symm heq)]
      have hb1 : doc1Index.toNat < tfidfVectors.length := by omega
      have hb2 : doc2Index.toNat < tfidfVectors.length := by omega
      rw [List.getD_eq_getElem _ _ hb1, List.getD_eq_getElem _ _ hb2]
      by_cases hm :
          magnitude sqrt tfidfVectors[doc1Index.toNat] = 0 ∨
            magnitude sqrt tfidfVectors[doc2Index.toNat] = 0
      · have hm2 : magnitude sqrt tfidfVectors[doc2Index.toNat] = 0 ∨
            magnitude sqrt tfidfVectors[doc1Index.toNat] = 0 := by tauto
        rw [if_pos hm, if_pos hm2]
      · have hm2 : ¬(magnitude sqrt tfidfVectors[doc2Index.toNat] = 0 ∨
            magnitude sqrt tfidfVectors[doc1Index.toNat] = 0) := by tauto
        rw [if_neg hm, if_neg hm2,
          dotProduct_comm (hkeys _ (List.getElem_mem _))
            (hkeys _ (List.getElem_mem _)),
          mul_comm (magnitude sqrt tfidfVectors[doc1Index.toNat])]

/-- Witness for C6: symmetry at a concrete pair of vectors with distinct
keys. -/
theorem cosineSimilarity_symm_witness :
    cosineSimilarity (fun x : ℚ => x)
        [[((0 : ℕ), (1 : ℚ)), (1, 2)], [(1, (3 : ℚ))]] 0 1 =
      cosineSimilarity (fun x : ℚ => x)
        [[((0 : ℕ), (1 : ℚ)), (1, 2)], [(1, (3 : ℚ))]] 1 0 :=
  cosineSimilarity_symm _ _ (by decide) 0 1

/-- C7: for distinct valid indices, when every stored weight is
non-negative (and keys are distinct, as in any `std::map`), the similarity
lies in `[0, 1]`; `sqrt` is assumed to behave as a square root on
non-negative inputs. -/
theorem cosineSimilarity_bounds (sqrt : K → K)
    (hnn : ∀ x : K, 0 ≤ x → 0 ≤ sqrt x)
    (hsq : ∀ x : K, 0 ≤ x → sqrt x * sqrt x = x)
    (tfidfVectors : List (List (α × K)))
    (hkeys : ∀ v ∈ tfidfVectors, (mapKeys v).Nodup)
    (hw : ∀ v ∈ tfidfVectors, ∀ p ∈ v, 0 ≤ p.2)
    {i j : ℕ} (hi : i < tfidfVectors.length) (hj : j < tfidfVectors.length)
    (hij : i ≠ j) :
    0 ≤ cosineSimilarity sqrt tfidfVectors (i : ℤ) (j : ℤ) ∧
      cosineSimilarity sqrt tfidfVectors (i : ℤ) (j : ℤ) ≤ 1 := by
  rw [cosineSimilarity_valid sqrt tfidfVectors hi hj hij]
  by_cases hm : magnitude sqrt (tfidfVectors.getD i []) = 0 ∨
      magnitude sqrt (tfidfVectors.getD j []) = 0
  · rw [if_pos hm]
    exact ⟨le_rfl, zero_le_one⟩
  · rw [if_neg hm]
    push_neg at hm
    have hvmem : tfidfVectors.getD i [] ∈ tfidfVectors := by
      rw [List.getD_eq_getElem _ _ hi]
      exact List.getElem_mem _
    have hwmem : tfidfVectors.getD j [] ∈ tfidfVectors := by
      rw [List.getD_eq_getElem _ _ hj]
      exact List.getElem_mem _
    have hkv := hkeys _ hvmem
    have hkw := hkeys _ hwmem
    have hd : dotProduct (tfidfVectors.getD i []) (tfidfVectors.getD j []) =
        dotIter (tfidfVectors.getD i []) (tfidfVectors.getD j []) := by
      rw [dotProduct_eq_dotIter]
      split_ifs with h
      · rfl
      · exact dotIter_comm hkw hkv
    have hSv := sqSum_nonneg (K := K) (tfidfVectors.getD i [])
    have hSw := sqSum_nonneg (K := K) (tfidfVectors.getD j [])
    have hmagv := magnitude_eq_sqrt_sqSum sqrt (tfidfVectors.getD i [])
    have hmagw := magnitude_eq_sqrt_sqSum sqrt (tfidfVectors.getD j [])
    have hvpos : 0 < magnitude sqrt (tfidfVectors.getD i []) :=
      lt_of_le_of_ne (hmagv ▸ hnn _ hSv) (Ne.symm hm.1)
    have hwpos : 0 < magnitude sqrt (tfidfVectors.getD j []) :=
      lt_of_le_of_ne (hmagw ▸ hnn _ hSw) (Ne.symm hm.2)
    have hdenpos : 0 < magnitude sqrt (tfidfVectors.getD i []) *
        magnitude sqrt (tfidfVectors.getD j []) := mul_pos hvpos hwpos
    have hdot0 : 0 ≤ dotIter (tfidfVectors.getD i []) (tfidfVectors.getD j []) :=
      dotIter_nonneg (hw _ hvmem) (hw _ hwmem)
    have hcs := dotIter_sq_le hkv hkw
    have hsq2 : (magnitude sqrt (tfidfVectors.getD i []) *
          magnitude sqrt (tfidfVectors.getD j [])) *
        (magnitude sqrt (tfidfVectors.getD i []) *
          magnitude sqrt (tfidfVectors.getD j [])) =
        sqSum (tfidfVectors.getD i []) * sqSum (tfidfVectors.getD j []) := by
      rw [hmagv, hmagw]
      calc (sqrt (sqSum (tfidfVectors.getD i [])) *
              sqrt (sqSum (tfidfVectors.getD j []))) *
            (sqrt (sqSum (tfidfVectors.getD i [])) *
              sqrt (sqSum (tfidfVectors.getD j []))) =
          (sqrt (sqSum (tfidfVectors.getD i [])) *
              sqrt (sqSum (tfidfVectors.getD i []))) *
            (sqrt (sqSum (tfidfVectors.getD j [])) *
              sqrt (sqSum (tfidfVectors.getD j []))) := by ring
        _ = sqSum (tfidfVectors.getD i []) * sqSum (tfidfVectors.getD j []) := by
            rw [hsq _ hSv, hsq _ hSw]
    have hle : dotIter (tfidfVectors.getD i []) (tfidfVectors.getD j []) ≤
        magnitude sqrt (tfidfVectors.getD i []) *
          magnitude sqrt (tfidfVectors.getD j []) := by
      nlinarith [hcs, hdot0, hdenpos, hsq2]
    rw [hd]
    exact ⟨div_nonneg hdot0 (le_of_lt hdenpos), (div_le_one hdenpos).mpr hle⟩

/-- Witness for C7: concrete bounds over `ℝ` with the real square root. -/
theorem cosineSimilarity_bounds_witness :
    0 ≤ cosineSimilarity Real.sqrt
        [[((0 : ℕ), (1 : ℝ))], [(0, (1 : ℝ))]]
        ((0 : ℕ) : ℤ) ((1 : ℕ) : ℤ) ∧
      cosineSimilarity Real.sqrt
        [[((0 : ℕ), (1 : ℝ))], [(0, (1 : ℝ))]]
        ((0 : ℕ) : ℤ) ((1 : ℕ) : ℤ) ≤ 1 :=
  cosineSimilarity_bounds Real.sqrt (fun x _ => Real.sqrt_nonneg x)
    (fun x hx => Real.mul_self_sqrt hx) _
    (by
      intro v hv
      have hveq : v = [((0 : ℕ), (1 : ℝ))] := by simpa using hv
      subst hveq
      simp [mapKeys])
    (by
      intro v hv p hp
      have hveq : v = [((0 : ℕ), (1 : ℝ))] := by simpa using hv
      subst hveq
      have hpeq : p = ((0 : ℕ), (1 : ℝ)) := by simpa using hp
      subst hpeq
      norm_num)
    (by norm_num) (by norm_num) (by norm_num)

theorem mapFind_computeTF_of_not_mem {document : List α} {t : α}
    (h : t ∉ document) : mapFind t (computeTF (K := K) document) = none := by
  rw [mapFind_eq_none, computeTF]
  by_cases hd : document.isEmpty
  · rw [if_pos hd]
    simp [mapKeys]
  · rw [if_neg hd, mapKeys_map, (List.perm_insertionSort _ _).mem_iff,
      List.mem_dedup]
    exact h

/-- C8: for a non-empty corpus and a vocabulary term, the stored IDF is
`log10 (totalDocs / docCount)`, where `docCount` counts the documents
containing the term at least once (not its occurrences); the `docCount = 0`
branch is defined as `0` (and is in fact unreachable for vocabulary terms,
whose `docCount` is positive). -/
theorem computeIDF_formula (log10 : K → K) (documents : List (List α))
    (hne : documents ≠ []) (term : α)
    (ht : term ∈ buildVocabulary documents) :
    docCount documents term =
        documents.countP (fun doc => decide (term ∈ doc)) ∧
      0 < docCount documents term ∧
      mapFind term (computeIDF log10 documents) =
        some (if docCount documents term = 0 then 0
          else log10
            ((documents.length : K) / (docCount documents term : K))) := by
  have hdc : 0 < docCount documents term := docCount_pos ht
  refine ⟨?_, hdc, ?_⟩
  · rw [docCount, List.countP_eq_length_filter]
  · rw [computeIDF, if_neg (by simpa [List.isEmpty_iff] using hne),
      mapFind_map_of_mem _ ht]
    congr 1
    rw [if_pos hdc,
      if_neg (show ¬docCount documents term = 0 by omega)]

/-- Witness for C8: the IDF entry of term `0` in the corpus `[[0], [1]]`. -/
theorem computeIDF_formula_witness :
    0 < docCount ([[0], [1]] : List (List ℕ)) 0 ∧
      mapFind 0 (computeIDF (fun x : ℚ => x) ([[0], [1]] : List (List ℕ))) =
        some (if docCount ([[0], [1]] : List (List ℕ)) 0 = 0 then 0
          else (fun x : ℚ => x)
            ((([[0], [1]] : List (List ℕ)).length : ℚ) /
              (docCount ([[0], [1]] : List (List ℕ)) 0 : ℚ))) :=
  ⟨(computeIDF_formula (fun x : ℚ => x) _ (by decide) 0 (by decide)).2.1,
   (computeIDF_formula (fun x : ℚ => x) _ (by decide) 0 (by decide)).2.2⟩

/-- C10: for a non-empty corpus, `computeTFIDF` produces one vector per
document, every vector's key list is exactly the vocabulary (so all vectors
share the same key set), and a vocabulary term absent from a document is
stored in that document's vector as an explicit entry with weight `0`. -/
theorem computeTFIDF_vocab_keys (log10 : K → K) (documents : List (List α))
    (hne : documents ≠ []) :
    (computeTFIDF log10 documents).length = documents.length ∧
      (∀ v ∈ computeTFIDF log10 documents,
        mapKeys v = buildVocabulary documents) ∧
      ∀ (i : ℕ) (hi : i < documents.length) (term : α),
        term ∈ buildVocabulary documents → term ∉ documents[i] →
          mapFind term ((computeTFIDF log10 documents).getD i []) =
            some 0 := by
  refine ⟨computeTFIDF_length log10 documents,
    fun v hv => mapKeys_computeTFIDF log10 hv, ?_⟩
  intro i hi term htv hterm
  rw [computeTFIDF_getD log10 hi, mapFind_map_of_mem _ htv,
    mapFind_computeTF_of_not_mem hterm]
  simp

/-- Witness for C10: in the corpus `[[0], [1]]` there are two vectors and
vector 0 stores the absent vocabulary term `1` with weight `0`. -/
theorem computeTFIDF_vocab_keys_witness :
    (computeTFIDF (fun x : ℚ => x) ([[0], [1]] : List (List ℕ))).length =
        ([[0], [1]] : List (List ℕ)).length ∧
      mapFind 1 ((computeTFIDF (fun x : ℚ => x)
          ([[0], [1]] : List (List ℕ))).getD 0 []) = some 0 :=
  ⟨(computeTFIDF_vocab_keys _ _ (by decide)).1,
   (computeTFIDF_vocab_keys _ _ (by decide)).2.2 0 (by decide) 1
     (by decide) (by decide)⟩

theorem pad2_length : ∀ m : ℕ, m < 100 → (pad2 m).length = 2 := by decide

/-- C9: the CSV consists of the fixed header followed by one row per result
of the form `"<A> vs <B>",<percentage>%,<Yes|No>`, the percentage is
rendered with a decimal point followed by exactly two digits, and the flag
is `Yes` exactly when the similarity strictly exceeds the threshold (so
equality with the threshold yields `No`). -/
theorem writeCSV_format (threshold : ℚ)
    (results : List (String × String × ℚ)) :
    (writeCSV threshold results).head? =
        some "Student Pair,Similarity Percentage,Plagiarized" ∧
      (writeCSV threshold results).length = results.length + 1 ∧
      (writeCSV threshold results).tail =
        results.map (fun r =>
          "\"" ++ r.1 ++ " vs " ++ r.2.1 ++ "\"," ++
            formatFixed2 (r.2.2 * 100) ++ "%," ++
            (if threshold < r.2.2 then "Yes" else "No")) ∧
      (∀ x : ℚ, ∃ intPart fracPart : String,
        formatFixed2 x = intPart ++ "." ++ fracPart ∧
          fracPart.length = 2) ∧
      ∀ sim : ℚ,
        ((if threshold < sim then "Yes" else "No") = "Yes" ↔
          threshold < sim) ∧
        (sim = threshold →
          (if threshold < sim then "Yes" else "No") = "No") := by
  refine ⟨rfl, by simp [writeCSV], rfl, ?_, ?_⟩
  · intro x
    refine ⟨(if round (x * 100) < 0 then "-" else "") ++
        toString ((round (x * 100)).natAbs / 100),
      pad2 ((round (x * 100)).natAbs % 100), rfl,
      pad2_length _ (Nat.mod_lt _ (by norm_num))⟩
  · intro sim
    constructor
    · constructor
      · intro h
        by_contra hc
        rw [if_neg hc] at h
        exact absurd h (by decide)
      · intro h
        rw [if_pos h]
    · intro h
      rw [if_neg (by rw [h]; exact lt_irrefl _)]

/-- Witness for C9: header line, two-decimal rendering of a concrete
percentage, and the `No` flag at exact threshold equality. -/
theorem writeCSV_format_witness :
    (writeCSV (1/2) [("A", "B", (1/2 : ℚ))]).head? =
        some "Student Pair,Similarity Percentage,Plagiarized" ∧
      (∃ intPart fracPart : String,
        formatFixed2 ((37 : ℚ)/10) = intPart ++ "." ++ fracPart ∧
          fracPart.length = 2) ∧
      (if (1 : ℚ)/2 < 1/2 then "Yes" else "No") = "No" :=
  ⟨(writeCSV_format ((1 : ℚ)/2) [("A", "B", (1/2 : ℚ))]).1,
   (writeCSV_format ((1 : ℚ)/2) [("A", "B", (1/2 : ℚ))]).2.2.2.1 _,
   ((writeCSV_format ((1 : ℚ)/2) [("A", "B", (1/2 : ℚ))]).2.2.2.2
     (1/2)).2 rfl⟩

/-- C1 (amended): two documents at distinct valid indices with identical
token multisets receive cosine similarity exactly `1`, provided their
(shared) TF-IDF vector has non-zero magnitude; when that magnitude is zero
(for example, when every vocabulary term occurs in all documents, making
every IDF `log10 1 = 0`), `cosineSimilarity` instead returns `0` through
the zero-magnitude rule. -/
theorem identical_docs_similarity_one (sqrt log10 : K → K)
    (hsq : ∀ x : K, 0 ≤ x → sqrt x * sqrt x = x)
    (documents : List (List α)) {i j : ℕ}
    (hi : i < documents.length) (hj : j < documents.length) (hij : i ≠ j)
    (hperm : List.Perm documents[i] documents[j])
    (hmag : magnitude sqrt ((computeTFIDF log10 documents).getD i []) ≠ 0) :
    cosineSimilarity sqrt (computeTFIDF log10 documents)
      (i : ℤ) (j : ℤ) = 1 := by
  have hi' : i < (computeTFIDF log10 documents).length := by
    rw [computeTFIDF_length]; exact hi
  have hj' : j < (computeTFIDF log10 documents).length := by
    rw [computeTFIDF_length]; exact hj
  have hvec : (computeTFIDF log10 documents).getD i [] =
      (computeTFIDF log10 documents).getD j [] := by
    rw [computeTFIDF_getD log10 hi, computeTFIDF_getD log10 hj,
      computeTF_perm hperm]
  have hnodup : (mapKeys ((computeTFIDF log10 documents).getD i [])).Nodup := by
    rw [computeTFIDF_getD log10 hi, mapKeys_map]
    exact buildVocabulary_nodup documents
  have hSne : sqSum ((computeTFIDF log10 documents).getD i []) ≠ 0 := by
    intro h0
    apply hmag
    rw [magnitude_eq_sqrt_sqSum, h0]
    exact mul_self_eq_zero.mp (hsq 0 le_rfl)
  rw [cosineSimilarity_valid sqrt _ hi' hj' hij, ← hvec,
    if_neg (by simpa using hmag), dotProduct_self hnodup,
    magnitude_eq_sqrt_sqSum,
    hsq (sqSum ((computeTFIDF log10 documents).getD i []))
      (sqSum_nonneg _),
    div_self hSne]

/-- Counterexample to C1 as stated: in the corpus `[["a"], ["a"]]` the two
documents have identical token multisets, yet every vocabulary term occurs
in all documents, so every IDF is `log10 1 = 0`, both TF-IDF vectors are
zero, and `cosineSimilarity 0 1` returns `0` (zero-magnitude rule), not
`1`. -/
theorem identical_docs_counterexample :
    cosineSimilarity Real.sqrt
        (computeTFIDF (fun x => Real.logb 10 x)
          ([["a"], ["a"]] : List (List String))) 0 1 = 0 ∧
      (0 : ℝ) ≠ 1 := by
  refine ⟨?_, by norm_num⟩
  have hvocab : buildVocabulary ([["a"], ["a"]] : List (List String)) =
      ["a"] := by
    simp [buildVocabulary, List.insertionSort, List.dedup, List.pwFilter]
  have hi' : (0 : ℕ) < (computeTFIDF (fun x => Real.logb 10 x)
      ([["a"], ["a"]] : List (List String))).length := by
    rw [computeTFIDF_length]; norm_num
  have hj' : (1 : ℕ) < (computeTFIDF (fun x => Real.logb 10 x)
      ([["a"], ["a"]] : List (List String))).length := by
    rw [computeTFIDF_length]; norm_num
  have hidf : mapFind "a" (computeIDF (fun x => Real.logb 10 x)
      ([["a"], ["a"]] : List (List String))) = some 0 := by
    rw [computeIDF, if_neg (by decide), hvocab,
      mapFind_map_of_mem _ (List.mem_singleton.mpr rfl)]
    have hdc : docCount ([["a"], ["a"]] : List (List String)) "a" = 2 := by
      simp [docCount]
    rw [hdc]
    norm_num [Real.logb_one]
  rw [show (0 : ℤ) = ((0 : ℕ) : ℤ) from rfl,
    show (1 : ℤ) = ((1 : ℕ) : ℤ) from rfl,
    cosineSimilarity_valid Real.sqrt _ hi' hj' (by norm_num)]
  suffices hmag : magnitude Real.sqrt
      ((computeTFIDF (fun x => Real.logb 10 x)
        ([["a"], ["a"]] : List (List String))).getD 0 []) = 0 by
    rw [if_pos (Or.inl hmag)]
  rw [computeTFIDF_getD _ (by norm_num), hvocab]
  simp only [List.map_cons, List.map_nil, List.getElem_cons_zero]
  rw [hidf]
  simp only [Option.getD_some, mul_zero]
  rw [magnitude_eq_sqrt_sqSum]
  simp [sqSum]

/-- Witness for C1 (amended): in the corpus `[[1], [1], [0]]` documents 0
and 1 are identical and their shared vector has non-zero magnitude, so the
similarity is exactly `1`. -/
theorem identical_docs_similarity_one_witness :
    cosineSimilarity Real.sqrt
        (computeTFIDF (fun x => Real.logb 10 x)
          ([[1], [1], [0]] : List (List ℕ)))
        ((0 : ℕ) : ℤ) ((1 : ℕ) : ℤ) = 1 := by
  refine identical_docs_similarity_one Real.sqrt (fun x => Real.logb 10 x)
    (fun x hx => Real.mul_self_sqrt hx) ([[1], [1], [0]] : List (List ℕ))
    (by norm_num) (by norm_num) (by norm_num) (List.Perm.refl _) ?_
  have htf : mapFind 1 (computeTF (K := ℝ) ([1] : List ℕ)) =
      some (((1 : ℕ) : ℝ) / ((1 : ℕ) : ℝ)) := by
    rw [computeTF, if_neg (by decide),
      show List.insertionSort (· ≤ ·) (List.dedup [1]) = ([1] : List ℕ)
        from by decide,
      mapFind_map_of_mem _ (by decide)]
    norm_num
  have hidf1 : mapFind 1 (computeIDF (fun x => Real.logb 10 x)
      ([[1], [1], [0]] : List (List ℕ))) = some (Real.logb 10 (3/2)) := by
    rw [computeIDF, if_neg (by decide),
      show buildVocabulary ([[1], [1], [0]] : List (List ℕ)) = [0, 1]
        from by decide,
      mapFind_map_of_mem _ (by decide : (1 : ℕ) ∈ [0, 1]),
      show docCount ([[1], [1], [0]] : List (List ℕ)) 1 = 2 from by decide]
    norm_num
  rw [computeTFIDF_getD _ (by norm_num),
    show buildVocabulary ([[1], [1], [0]] : List (List ℕ)) = [0, 1]
      from by decide]
  simp only [List.map_cons, List.map_nil, List.getElem_cons_zero]
  rw [mapFind_computeTF_of_not_mem (by decide : (0 : ℕ) ∉ ([1] : List ℕ)),
    htf, hidf1]
  simp only [Option.getD_none, Option.getD_some, zero_mul]
  rw [magnitude_eq_sqrt_sqSum]
  have h32 : 0 < Real.logb 10 (3/2) :=
    Real.logb_pos (by norm_num) (by norm_num)
  have hS : sqSum [((0 : ℕ), (0 : ℝ)),
      (1, ((1 : ℕ) : ℝ) / ((1 : ℕ) : ℝ) * Real.logb 10 (3/2))] =
      Real.logb 10 (3/2) * Real.logb 10 (3/2) := by
    norm_num [sqSum]
  rw [hS]
  exact Real.sqrt_ne_zero'.mpr (mul_pos h32 h32)

end Plagiarism
